import Mathlib

/-!
Verification of the resume-analyzer core (src/app.py): text normalization
(clean_text), keyword coverage (keyword_coverage), ATS heuristics
(detect_ats_issues), suggestion generation (generate_suggestions), the
TF-IDF similarity scorer (similarity_score) and the docx temp-file handling
inside extract_text_from_upload.  Python strings are modelled as Lean
strings (lists of characters); floats are modelled as rationals or reals.
-/

namespace ResumeApp

/-! ### Character classes (ASCII model of Python character classes) -/

/-- Python whitespace class. -/
def isSpaceCh (c : Char) : Bool :=
  c = ' ' || c = '\t' || c = '\n' || c = '\r' || c = '\x0b' || c = '\x0c'

/-- ASCII letter. -/
def isLetterCh (c : Char) : Bool :=
  ('a' ≤ c && c ≤ 'z') || ('A' ≤ c && c ≤ 'Z')

/-- ASCII digit. -/
def isDigitCh (c : Char) : Bool :=
  '0' ≤ c && c ≤ '9'

/-- Python regex word character (ASCII model). -/
def isWordCh (c : Char) : Bool :=
  isLetterCh c || isDigitCh c || c = '_'

/-- ASCII lowercasing, the model of Python str.lower. -/
def lowerChar (c : Char) : Char :=
  if 'A' ≤ c ∧ c ≤ 'Z' then Char.ofNat (c.toNat + 32) else c

/-- Lowercased character list of a string. -/
def lowerStrL (s : String) : List Char := s.data.map lowerChar

/-! ### clean_text (src/app.py lines 118-121)

`t = re.sub(r"\s+", " ", t or ""); return t.strip()` -/

/-- One pass of the regex `re.sub(r"\s+", " ", ...)`: the flag records
whether the previous character was whitespace (i.e. we are inside a run
that was already replaced by a single space). -/
def collapseAux (prevSpace : Bool) : List Char → List Char
  | [] => []
  | c :: rest =>
    if isSpaceCh c then
      if prevSpace then collapseAux true rest
      else ' ' :: collapseAux true rest
    else c :: collapseAux false rest

/-- `re.sub(r"\s+", " ", t)`. -/
def collapseWs (l : List Char) : List Char := collapseAux false l

/-- Python str.strip: drop leading and trailing whitespace. -/
def stripChars (l : List Char) : List Char :=
  (((l.dropWhile isSpaceCh).reverse).dropWhile isSpaceCh).reverse

/-- Character-level body of clean_text. -/
def cleanChars (l : List Char) : List Char := stripChars (collapseWs l)

/-- clean_text from src/app.py: `t = t or ""` (None becomes the empty
string), collapse whitespace runs to single spaces, strip. -/
def clean_text (t : Option String) : String := ⟨cleanChars ((t.getD "").data)⟩

/-! ### Substring containment (Python `w in resume`) -/

/-- Literal substring containment: some suffix of the haystack starts with
the needle. -/
def isSubstr (needle hay : List Char) : Bool :=
  hay.tails.any (fun t => needle.isPrefixOf t)

/-! ### keyword_coverage (src/app.py lines 124-130) -/

/-- Characters allowed after the leading letter in the token regex
`[a-zA-Z][a-zA-Z\+\#\.\-]{1,}` (text already lowercased). -/
def allowedKw (c : Char) : Bool :=
  isLetterCh c || c = '+' || c = '#' || c = '.' || c = '-'

/-- `re.findall(r"[a-zA-Z][a-zA-Z\+\#\.\-]{1,}", text)`: left-to-right,
greedy, non-overlapping scan.  `cur` is the reversed candidate token being
built (nonempty exactly when inside a candidate started by a letter);
candidates of length < 2 are not matches of the pattern. -/
def kwScan (cur : List Char) : List Char → List (List Char)
  | [] => if 2 ≤ cur.length then [cur.reverse] else []
  | c :: rest =>
    if cur.isEmpty then
      if isLetterCh c then kwScan [c] rest else kwScan [] rest
    else
      if allowedKw c then kwScan (c :: cur) rest
      else (if 2 ≤ cur.length then [cur.reverse] else []) ++ kwScan [] rest

/-- All regex matches in a character list. -/
def findTokens (l : List Char) : List (List Char) := kwScan [] l

/-- Boolean strict lexicographic order on character lists (Python string
comparison by code points). -/
def strLtb : List Char → List Char → Bool
  | [], [] => false
  | [], _ :: _ => true
  | _ :: _, [] => false
  | a :: as, b :: bs => if a < b then true else if b < a then false else strLtb as bs

/-- Boolean `≤` on strings. -/
def strLeb (a b : String) : Bool := !(strLtb b.data a.data)

/-- Insert into a sorted list of strings. -/
def insertSorted (s : String) : List String → List String
  | [] => [s]
  | t :: r => if strLeb s t then s :: t :: r else t :: insertSorted s r

/-- Python `sorted` on a list of strings (insertion sort). -/
def sortStrings (l : List String) : List String := l.foldr insertSorted []

/-- keyword_coverage from src/app.py: tokenize the lowercased job
description, keep tokens of length > 2, deduplicate and sort, keep those
occurring as substrings of the lowercased resume, and compute the
percentage with a `max 1` guard on the denominator. -/
def keyword_coverage (resume_text jd_text : String) : ℚ × List String × List String :=
  let resume := lowerStrL resume_text
  let words := ((findTokens (lowerStrL jd_text)).map (fun l => String.mk l)).filter
    (fun w => 2 < w.length)
  let unique := sortStrings words.dedup
  let found := unique.filter (fun w => isSubstr w.data resume)
  let coverage := ((found.length : ℚ) / ((max 1 unique.length : ℕ) : ℚ)) * 100
  (coverage, found, unique)

/-! ### detect_ats_issues (src/app.py lines 144-158) -/

/-- Search for a run of at least `n` consecutive digits (`\d{n}`). -/
def hasDigitRun (n : ℕ) (l : List Char) : Bool :=
  l.tails.any (fun t => n ≤ (t.takeWhile isDigitCh).length)

/-- Match the tail `\d{3}-\d{4}` at the head of the list. -/
def phoneTail : List Char → Bool
  | a :: b :: c :: d :: e :: f :: g :: h :: _ =>
    isDigitCh a && isDigitCh b && isDigitCh c && d = '-' &&
    isDigitCh e && isDigitCh f && isDigitCh g && isDigitCh h
  | _ => false

/-- Match the pattern `\(\d{3}\)\s*\d{3}-\d{4}` at the head of the list
(the whitespace and digit classes are disjoint, so the greedy `\s*` needs
no backtracking). -/
def phoneAt : List Char → Bool
  | c0 :: d1 :: d2 :: d3 :: c4 :: rest =>
    c0 = '(' && isDigitCh d1 && isDigitCh d2 && isDigitCh d3 && c4 = ')' &&
      phoneTail (rest.dropWhile isSpaceCh)
  | _ => false

/-- `re.search(r"\(\d{3}\)\s*\d{3}-\d{4}", text)` as a Boolean. -/
def hasPhonePattern (l : List Char) : Bool := l.tails.any phoneAt

/-- Case-insensitive search for any of the given (lowercase, letters-only)
words as a substring, the model of `re.search("w1|w2|...", text, re.I)`. -/
def hasAnyWord (ws : List String) (l : List Char) : Bool :=
  ws.any (fun w => isSubstr w.data (l.map lowerChar))

def shortMsg : String := "Resume seems short. Add detail and measurable achievements."
def tabMsg : String := "Avoid TAB characters; some ATS parsers misread complex formatting."
def emailMsg : String := "Missing contact email."
def phoneMsg : String := "Missing phone number."
def eduMsg : String := "Education section not detected (use heading \x27Education\x27)."
def expMsg : String := "Experience section not detected (use heading \x27Experience\x27)."

def eduWords : List String := ["education", "bachelor", "master", "university"]
def expWords : List String := ["experience", "work history", "employment"]

/-- detect_ats_issues from src/app.py: six independent checks appending
fixed messages to the issue list. -/
def detect_ats_issues (resume_text : String) : List String :=
  let l := resume_text.data
  (if resume_text.length < 500 then [shortMsg] else []) ++
  (if '\t' ∈ l then [tabMsg] else []) ++
  (if '@' ∈ l then [] else [emailMsg]) ++
  (if hasDigitRun 10 l || hasPhonePattern l then [] else [phoneMsg]) ++
  (if hasAnyWord eduWords l then [] else [eduMsg]) ++
  (if hasAnyWord expWords l then [] else [expMsg])

/-! ### generate_suggestions (src/app.py lines 161-172) -/

/-- Match of `\b(\d+%|\d{2,})\b` starting at the current position, given
whether the previous character was a word character, or anywhere later. -/
def quantMatch (prevIsWord : Bool) : List Char → Bool
  | [] => false
  | c :: rest =>
    (if !prevIsWord && isDigitCh c then
      let run := (c :: rest).takeWhile isDigitCh
      let after := (c :: rest).drop run.length
      (match after with
       | '%' :: r2 =>
         (match r2 with
          | d :: _ => isWordCh d
          | [] => false)
       | _ => false) ||
      (2 ≤ run.length &&
        (match after with
         | [] => true
         | d :: _ => !isWordCh d))
     else false) ||
    quantMatch (isWordCh c) rest

/-- `re.search(r"\b(\d+%|\d{2,})\b", text)` as a Boolean. -/
def hasQuantPattern (l : List Char) : Bool := quantMatch false l

/-- Non-overlapping count of a one-character needle (Python str.count). -/
def count1 (c : Char) (l : List Char) : ℕ := l.count c

/-- Non-overlapping left-to-right count of a two-character needle
(Python str.count for a length-2 pattern). -/
def count2 (c1 c2 : Char) : List Char → ℕ
  | a :: b :: rest =>
    if a = c1 ∧ b = c2 then 1 + count2 c1 c2 rest else count2 c1 c2 (b :: rest)
  | _ => 0

def missingMsg (l : List String) : String :=
  "Add relevant JD keywords (missing examples: " ++ String.intercalate ", " l ++ ")."
def quantifyMsg : String :=
  "Quantify achievements (e.g., \x27Improved accuracy by 12%\x27, \x27Processed 1M+ rows\x27)."
def bulletMsg : String :=
  "Use concise bullet points with action verbs (Built, Led, Automated, Reduced)."
def genericMsg : String :=
  "Tailor the top 5 bullets to the role’s must-have skills and responsibilities."

/-- `missing = [w for w in all_keywords if w not in found_keywords][:15]`. -/
def missingOf (resume_text jd_text : String) (found_keywords : List String) : List String :=
  (((keyword_coverage resume_text jd_text).2.2).filter
    (fun w => !(found_keywords.contains w))).take 15

/-- generate_suggestions from src/app.py: missing-keyword suggestion (first
15 missing tokens, naming the first 10), quantify-achievements suggestion,
bullet-point suggestion, and an unconditional generic suggestion last. -/
def generate_suggestions (resume_text jd_text : String) (found_keywords : List String) :
    List String :=
  let missing := missingOf resume_text jd_text found_keywords
  (if !missing.isEmpty then [missingMsg (missing.take 10)] else []) ++
  (if !hasQuantPattern resume_text.data then [quantifyMsg] else []) ++
  (if count1 '•' resume_text.data < 3 ∧ count2 '-' ' ' resume_text.data < 3
    then [bulletMsg] else []) ++
  [genericMsg]

/-! ### extract_text_from_upload, docx branch (src/app.py lines 60-115)

The filesystem is modelled as the list of file names present; the optional
parser libraries are modelled as optional parsing functions which may
raise (Except.error) exactly where the Python code catches exceptions. -/

structure UploadFile where
  name : String
  content : List ℕ

structure FileSys where
  files : List String

def fsWrite (fs : FileSys) (n : String) : FileSys :=
  ⟨n :: fs.files.filter (fun m => m ≠ n)⟩

/-- os.remove wrapped in try/except pass: total removal. -/
def fsRemove (fs : FileSys) (n : String) : FileSys :=
  ⟨fs.files.filter (fun m => m ≠ n)⟩

/-- Case-insensitive-free suffix test (names are lowercased first by the
code, so a plain suffix test suffices). -/
def strEndsWith (s suffix : String) : Bool :=
  suffix.data.reverse.isPrefixOf s.data.reverse

/-- extract_text_from_upload from src/app.py.  `docxProc` models the
optional docx2txt module (`process` may raise, and may return None,
modelled as `Except Unit (Option String)`); `pdfRead` models the optional
PyPDF2 module; `decode` models `bytes.decode(enc, errors="ignore")`, which
never raises.  The docx branch writes "temp_upload.docx", calls the parser
and removes the file only on the success path; a parser exception falls
through to the generic decode with the temp file still present. -/
def extract_text_from_upload
    (docxProc : Option (List ℕ → Except Unit (Option String)))
    (pdfRead : Option (List ℕ → Except Unit String))
    (decode : List ℕ → String)
    (uploaded_file : Option UploadFile) (fs : FileSys) : String × FileSys :=
  match uploaded_file with
  | none => ("", fs)
  | some uf =>
    let name := String.mk (lowerStrL uf.name)
    let content := uf.content
    if strEndsWith name ".txt" then (decode content, fs)
    else
      match docxProc with
      | some proc =>
        if strEndsWith name ".docx" then
          let fs1 := fsWrite fs "temp_upload.docx"
          match proc content with
          | Except.ok t => (t.getD "", fsRemove fs1 "temp_upload.docx")
          | Except.error _ => (decode content, fs1)
        else
          (match pdfRead with
           | some rd =>
             if strEndsWith name ".pdf" then
               match rd content with
               | Except.ok t => (t, fs)
               | Except.error _ => (decode content, fs)
             else (decode content, fs)
           | none => (decode content, fs))
      | none =>
        (match pdfRead with
         | some rd =>
           if strEndsWith name ".pdf" then
             match rd content with
             | Except.ok t => (t, fs)
             | Except.error _ => (decode content, fs)
           else (decode content, fs)
         | none => (decode content, fs))

/-! ### similarity_score (src/app.py lines 133-141)

Modelled from the library behaviour of
`TfidfVectorizer(stop_words="english", ngram_range=(1, 2))` and
`cosine_similarity` over the two-document corpus: lowercase, tokenize with
`\b\w\w+\b`, drop English stop words, add bigrams, weight each term by
`count * (ln((1 + 2) / (1 + df)) + 1)` (smooth idf over the 2 documents)
and take the cosine of the two vectors.  An empty vocabulary makes `fit`
raise, which the code catches and turns into 0.0; a zero-norm vector
yields cosine 0 (matching the division-by-zero convention used here). -/

/-- `\b\w\w+\b` token scan: maximal runs of word characters; `cur` is the
reversed run being built. -/
def wordRunScan (cur : List Char) : List Char → List (List Char)
  | [] => if cur.isEmpty then [] else [cur.reverse]
  | c :: rest =>
    if isWordCh c then wordRunScan (c :: cur) rest
    else if cur.isEmpty then wordRunScan [] rest
    else cur.reverse :: wordRunScan [] rest

/-- scikit-learn token pattern applied to the lowercased text: maximal
word-character runs of length at least 2. -/
def sklearnTokens (s : String) : List String :=
  ((wordRunScan [] (lowerStrL s)).filter (fun t => 2 ≤ t.length)).map String.mk

/-- Modelled from the spec: the fixed English stop-word list used by the
vectorizer (scikit-learn ENGLISH_STOP_WORDS). -/
def englishStopwords : List String :=
  ["a", "about", "above", "across", "after", "afterwards", "again", "against",
   "all", "almost", "alone", "along", "already", "also", "although", "always",
   "am", "among", "amongst", "amoungst", "amount", "an", "and", "another",
   "any", "anyhow", "anyone", "anything", "anyway", "anywhere", "are",
   "around", "as", "at", "back", "be", "became", "because", "become",
   "becomes", "becoming", "been", "before", "beforehand", "behind", "being",
   "below", "beside", "besides", "between", "beyond", "bill", "both",
   "bottom", "but", "by", "call", "can", "cannot", "cant", "co", "con",
   "could", "couldnt", "cry", "de", "describe", "detail", "do", "done",
   "down", "due", "during", "each", "eg", "eight", "either", "eleven",
   "else", "elsewhere", "empty", "enough", "etc", "even", "ever", "every",
   "everyone", "everything", "everywhere", "except", "few", "fifteen",
   "fifty", "fill", "find", "fire", "first", "five", "for", "former",
   "formerly", "forty", "found", "four", "from", "front", "full", "further",
   "get", "give", "go", "had", "has", "hasnt", "have", "he", "hence", "her",
   "here", "hereafter", "hereby", "herein", "hereupon", "hers", "herself",
   "him", "himself", "his", "how", "however", "hundred", "i", "ie", "if",
   "in", "inc", "indeed", "interest", "into", "is", "it", "its", "itself",
   "keep", "last", "latter", "latterly", "least", "less", "ltd", "made",
   "many", "may", "me", "meanwhile", "might", "mill", "mine", "more",
   "moreover", "most", "mostly", "move", "much", "must", "my", "myself",
   "name", "namely", "neither", "never", "nevertheless", "next", "nine",
   "no", "nobody", "none", "noone", "nor", "not", "nothing", "now",
   "nowhere", "of", "off", "often", "on", "once", "one", "only", "onto",
   "or", "other", "others", "otherwise", "our", "ours", "ourselves", "out",
   "over", "own", "part", "per", "perhaps", "please", "put", "rather", "re",
   "same", "see", "seem", "seemed", "seeming", "seems", "serious",
   "several", "she", "should", "show", "side", "since", "sincere", "six",
   "sixty", "so", "some", "somehow", "someone", "something", "sometime",
   "sometimes", "somewhere", "still", "such", "system", "take", "ten",
   "than", "that", "the", "their", "them", "themselves", "then", "thence",
   "there", "thereafter", "thereby", "therefore", "therein", "thereupon",
   "these", "they", "thick", "thin", "third", "this", "those", "though",
   "three", "through", "throughout", "thru", "thus", "to", "together",
   "too", "top", "toward", "towards", "twelve", "twenty", "two", "un",
   "under", "until", "up", "upon", "us", "very", "via", "was", "we", "well",
   "were", "what", "whatever", "when", "whence", "whenever", "where",
   "whereafter", "whereas", "whereby", "wherein", "whereupon", "wherever",
   "whether", "which", "while", "whither", "who", "whoever", "whole",
   "whom", "whose", "why", "will", "with", "within", "without", "would",
   "yet", "you", "your", "yours", "yourself", "yourselves"]

/-- The analyzed term sequence of one document: stop-word-filtered tokens
followed by their bigrams (ngram_range (1, 2)). -/
def analyzeList (s : String) : List String :=
  let toks := (sklearnTokens s).filter (fun w => !(englishStopwords.contains w))
  toks ++ (toks.zip toks.tail).map (fun p => p.1 ++ " " ++ p.2)

/-- The fitted vocabulary over the two-document corpus. -/
def vocabFinset (a b : String) : Finset String :=
  (analyzeList a ++ analyzeList b).toFinset

/-- Document frequency of a term in the two-document corpus. -/
def df (a b t : String) : ℕ :=
  (if t ∈ analyzeList a then 1 else 0) + (if t ∈ analyzeList b then 1 else 0)

/-- Smooth idf over the two-document corpus:
`ln((1 + n_docs) / (1 + df)) + 1` with `n_docs = 2`. -/
noncomputable def idf (a b t : String) : ℝ :=
  Real.log (3 / (1 + (df a b t : ℝ))) + 1

/-- Raw tf-idf weight of term `t` in document `d` of the corpus `{a, b}`. -/
noncomputable def tfidfW (a b d t : String) : ℝ :=
  ((analyzeList d).count t : ℝ) * idf a b t

/-- Dot product of the tf-idf vectors of documents `d` and `e` over the
fitted vocabulary. -/
noncomputable def dotP (a b d e : String) : ℝ :=
  ∑ t ∈ vocabFinset a b, tfidfW a b d t * tfidfW a b e t

/-- similarity_score from src/app.py: cosine similarity of the two tf-idf
vectors scaled to a percentage; an empty vocabulary (the case where
`fit_transform` raises) yields 0.0 through the except branch, and a
zero-norm vector yields cosine 0. -/
noncomputable def similarity_score (a b : String) : ℝ :=
  if vocabFinset a b = ∅ then 0
  else 100 * (dotP a b a b / (Real.sqrt (dotP a b a a) * Real.sqrt (dotP a b b b)))

/-! ### Properties of clean_text -/

/-- Two adjacent characters are not both whitespace. -/
def noTwoSpaces (x y : Char) : Prop := ¬(isSpaceCh x = true ∧ isSpaceCh y = true)

theorem mem_collapseAux : ∀ (l : List Char) (b : Bool) (c : Char),
    c ∈ collapseAux b l → c = ' ' ∨ (c ∈ l ∧ isSpaceCh c = false) := by
  intro l
  induction l with
  | nil => intro b c h; simp [collapseAux] at h
  | cons a r ih =>
    intro b c h
    by_cases ha : isSpaceCh a = true
    · cases b with
      | true =>
        simp only [collapseAux, ha, if_true] at h
        rcases ih true c h with h1 | h1
        · exact Or.inl h1
        · exact Or.inr ⟨List.mem_cons_of_mem a h1.1, h1.2⟩
      | false =>
        simp only [collapseAux, ha, if_true, Bool.false_eq_true, if_false,
          List.mem_cons] at h
        rcases h with h | h
        · exact Or.inl h
        · rcases ih true c h with h1 | h1
          · exact Or.inl h1
          · exact Or.inr ⟨List.mem_cons_of_mem a h1.1, h1.2⟩
    · simp only [collapseAux, ha, Bool.false_eq_true, if_false, List.mem_cons] at h
      rcases h with h | h
      · subst h
        exact Or.inr ⟨List.mem_cons_self c r, Bool.not_eq_true _ ▸ ha⟩
      · rcases ih false c h with h1 | h1
        · exact Or.inl h1
        · exact Or.inr ⟨List.mem_cons_of_mem a h1.1, h1.2⟩

theorem head_collapseAux_true : ∀ (l : List Char) (c : Char),
    (collapseAux true l).head? = some c → isSpaceCh c = false := by
  intro l
  induction l with
  | nil => intro c h; simp [collapseAux] at h
  | cons a r ih =>
    intro c h
    by_cases ha : isSpaceCh a = true
    · simp only [collapseAux, ha, if_true] at h
      exact ih c h
    · simp only [collapseAux, ha, Bool.false_eq_true, if_false, List.head?_cons] at h
      rw [← Option.some.injEq a c |>.mp h]
      exact Bool.not_eq_true _ ▸ ha

theorem chain_collapseAux : ∀ (l : List Char) (b : Bool),
    List.Chain' noTwoSpaces (collapseAux b l) := by
  intro l
  induction l with
  | nil => intro b; simp [collapseAux]
  | cons a r ih =>
    intro b
    by_cases ha : isSpaceCh a = true
    · cases b with
      | true => simpa only [collapseAux, ha, if_true] using ih true
      | false =>
        simp only [collapseAux, ha, if_true, Bool.false_eq_true, if_false]
        refine List.chain'_cons'.mpr ⟨?_, ih true⟩
        intro y hy
        have : isSpaceCh y = false := head_collapseAux_true r y hy
        exact fun hcon => by simp [this] at hcon
    · simp only [collapseAux, ha, Bool.false_eq_true, if_false]
      refine List.chain'_cons'.mpr ⟨?_, ih false⟩
      intro y _
      exact fun hcon => by simp [hcon.1] at ha

theorem collapseAux_eq_self : ∀ (l : List Char) (b : Bool),
    (∀ c ∈ l, isSpaceCh c = true → c = ' ') →
    List.Chain' noTwoSpaces l →
    (b = true → ∀ c, l.head? = some c → isSpaceCh c = false) →
    collapseAux b l = l := by
  intro l
  induction l with
  | nil => intro b _ _ _; cases b <;> rfl
  | cons a r ih =>
    intro b h1 h2 h3
    by_cases ha : isSpaceCh a = true
    · cases b with
      | true =>
        exact absurd ha (by simp [h3 rfl a List.head?_cons])
      | false =>
        simp only [collapseAux, ha, if_true, Bool.false_eq_true, if_false]
        have haa : a = ' ' := h1 a (List.mem_cons_self a r) ha
        have hr : collapseAux true r = r := by
          refine ih true (fun c hc => h1 c (List.mem_cons_of_mem a hc)) ?_ ?_
          · exact (List.chain'_cons'.mp h2).2
          · intro _ c hc
            have := (List.chain'_cons'.mp h2).1 c hc
            by_contra hcon
            exact this ⟨ha, by simpa using hcon⟩
        rw [hr, haa]
    · simp only [collapseAux, ha, Bool.false_eq_true, if_false]
      have hr : collapseAux false r = r := by
        refine ih false (fun c hc => h1 c (List.mem_cons_of_mem a hc))
          (List.chain'_cons'.mp h2).2 ?_
        intro hcon; cases hcon
      rw [hr]

theorem head_dropWhile_space : ∀ (l : List Char) (c : Char),
    (l.dropWhile isSpaceCh).head? = some c → isSpaceCh c = false := by
  intro l
  induction l with
  | nil => intro c h; simp [List.dropWhile] at h
  | cons a r ih =>
    intro c h
    by_cases ha : isSpaceCh a = true
    · rw [List.dropWhile_cons, if_pos ha] at h
      exact ih c h
    · rw [List.dropWhile_cons, if_neg ha, List.head?_cons] at h
      rw [← Option.some.injEq a c |>.mp h]
      exact Bool.not_eq_true _ ▸ ha

theorem dropWhile_space_eq_self (l : List Char)
    (h : ∀ c, l.head? = some c → isSpaceCh c = false) :
    l.dropWhile isSpaceCh = l := by
  cases l with
  | nil => rfl
  | cons a r =>
    rw [List.dropWhile_cons, if_neg]
    simp [h a List.head?_cons]

theorem mem_cleanChars (l : List Char) (c : Char) (h : c ∈ cleanChars l) :
    c = ' ' ∨ (c ∈ l ∧ isSpaceCh c = false) := by
  have h1 : c ∈ collapseWs l := by
    have s1 := (List.dropWhile_suffix (l := (collapseWs l).dropWhile isSpaceCh |>.reverse)
      isSpaceCh).subset
    have s2 := (List.dropWhile_suffix (l := collapseWs l) isSpaceCh).subset
    have : c ∈ ((collapseWs l).dropWhile isSpaceCh).reverse.dropWhile isSpaceCh := by
      simpa [cleanChars, stripChars] using h
    exact s2 (List.mem_reverse.mp (s1 this))
  exact mem_collapseAux l false c h1

theorem chain_cleanChars (l : List Char) :
    List.Chain' noTwoSpaces (cleanChars l) := by
  have symmNT : ∀ x y : Char, noTwoSpaces x y → noTwoSpaces y x := by
    intro x y hxy hcon; exact hxy ⟨hcon.2, hcon.1⟩
  have c0 : List.Chain' noTwoSpaces (collapseWs l) := chain_collapseAux l false
  have c1 : List.Chain' noTwoSpaces ((collapseWs l).dropWhile isSpaceCh) :=
    c0.suffix (List.dropWhile_suffix isSpaceCh)
  have c2 : List.Chain' noTwoSpaces ((collapseWs l).dropWhile isSpaceCh).reverse :=
    List.chain'_reverse.mpr (c1.imp symmNT)
  have c3 : List.Chain' noTwoSpaces
      (((collapseWs l).dropWhile isSpaceCh).reverse.dropWhile isSpaceCh) :=
    c2.suffix (List.dropWhile_suffix isSpaceCh)
  have c4 : List.Chain' noTwoSpaces
      ((((collapseWs l).dropWhile isSpaceCh).reverse.dropWhile isSpaceCh).reverse) :=
    List.chain'_reverse.mpr (c3.imp symmNT)
  simpa [cleanChars, stripChars] using c4

theorem head_cleanChars (l : List Char) (c : Char)
    (h : (cleanChars l).head? = some c) : isSpaceCh c = false := by
  set d1 := (collapseWs l).dropWhile isSpaceCh with hd1
  have hpre : cleanChars l <+: d1 := by
    have hsfx : d1.reverse.dropWhile isSpaceCh <:+ d1.reverse :=
      List.dropWhile_suffix isSpaceCh
    have := List.reverse_prefix.mpr hsfx
    simpa [cleanChars, stripChars, hd1] using this
  obtain ⟨t, ht⟩ := hpre
  have hhd : d1.head? = some c := by
    cases hcl : cleanChars l with
    | nil => rw [hcl] at h; simp at h
    | cons x xs =>
      rw [hcl] at h ht
      simp only [List.head?_cons] at h
      rw [← ht, List.cons_append, List.head?_cons]
      exact h
  exact head_dropWhile_space (collapseWs l) c hhd

theorem last_cleanChars (l : List Char) (c : Char)
    (h : (cleanChars l).getLast? = some c) : isSpaceCh c = false := by
  have hrev : (cleanChars l).reverse.head? = some c := by
    rw [List.head?_reverse]; exact h
  have : (((collapseWs l).dropWhile isSpaceCh).reverse.dropWhile isSpaceCh).head? =
      some c := by
    simpa [cleanChars, stripChars] using hrev
  exact head_dropWhile_space ((collapseWs l).dropWhile isSpaceCh).reverse c this

theorem cleanChars_idem (l : List Char) : cleanChars (cleanChars l) = cleanChars l := by
  set m := cleanChars l with hm
  have hcoll : collapseWs m = m := by
    refine collapseAux_eq_self m false ?_ (chain_cleanChars l) ?_
    · intro c hc hsp
      rcases mem_cleanChars l c hc with h | h
      · exact h
      · rw [h.2] at hsp; cases hsp
    · intro hcon; cases hcon
  have hdw : m.dropWhile isSpaceCh = m :=
    dropWhile_space_eq_self m (fun c hc => head_cleanChars l c hc)
  have hdwr : m.reverse.dropWhile isSpaceCh = m.reverse := by
    refine dropWhile_space_eq_self m.reverse ?_
    intro c hc
    rw [List.head?_reverse] at hc
    exact last_cleanChars l c hc
  show stripChars (collapseWs m) = m
  rw [hcoll]
  show ((m.dropWhile isSpaceCh).reverse.dropWhile isSpaceCh).reverse = m
  rw [hdw, hdwr, List.reverse_reverse]

/-- C3: normalization is idempotent: cleaning twice equals cleaning once. -/
theorem clean_text_idempotent (t : String) :
    clean_text (some (clean_text (some t))) = clean_text (some t) := by
  show (⟨cleanChars (cleanChars t.data)⟩ : String) = ⟨cleanChars t.data⟩
  rw [cleanChars_idem]

/-- C4: clean_text output has no two consecutive whitespace characters and
no leading or trailing whitespace; it is total, and on None or empty input
it returns the empty string. -/
theorem clean_text_wellformed (t : Option String) :
    List.Chain' noTwoSpaces (clean_text t).data ∧
    (∀ c, (clean_text t).data.head? = some c → isSpaceCh c = false) ∧
    (∀ c, (clean_text t).data.getLast? = some c → isSpaceCh c = false) ∧
    clean_text none = "" ∧ clean_text (some "") = "" := by
  refine ⟨chain_cleanChars _, fun c hc => head_cleanChars _ c hc,
    fun c hc => last_cleanChars _ c hc, rfl, rfl⟩

/-- Witness for C4 at a concrete input. -/
theorem clean_text_wellformed_witness :
    clean_text none = "" ∧ clean_text (some "") = "" ∧
    isSpaceCh 'a' = false :=
  ⟨(clean_text_wellformed none).2.2.2.1,
   (clean_text_wellformed (some "")).2.2.2.2,
   (clean_text_wellformed (some " a ")).2.1 'a' (by decide)⟩

/-! ### Membership in the ATS issue list -/

theorem mem_ite_singleton {c : Prop} [Decidable c] {x m : String}
    (h : x ∈ if c then [m] else []) : x = m := by
  by_cases hc : c
  · rw [if_pos hc] at h; simpa using h
  · rw [if_neg hc] at h; simp at h

theorem mem_ite_singleton_not {c : Prop} [Decidable c] {x m : String}
    (h : x ∈ if c then [] else [m]) : x = m := by
  by_cases hc : c
  · rw [if_pos hc] at h; simp at h
  · rw [if_neg hc] at h; simpa using h

/-- Claim C10: after normalization the tab-character finding can never
fire: clean_text output contains no tab, so detect_ats_issues on
normalized text never reports the tab message. -/
theorem no_tab_finding_after_clean (t : String) :
    tabMsg ∉ detect_ats_issues (clean_text (some t)) := by
  intro h
  have htab : '\t' ∉ (clean_text (some t)).data := by
    intro hmem
    rcases mem_cleanChars t.data '\t' hmem with h1 | h1
    · exact absurd h1 (by decide)
    · exact absurd h1.2 (by decide)
  simp only [detect_ats_issues, List.mem_append] at h
  rcases h with ((((h | h) | h) | h) | h) | h
  · exact absurd (mem_ite_singleton h) (by decide)
  · rw [if_neg htab] at h; simp at h
  · exact absurd (mem_ite_singleton_not h) (by decide)
  · exact absurd (mem_ite_singleton_not h) (by decide)
  · exact absurd (mem_ite_singleton_not h) (by decide)
  · exact absurd (mem_ite_singleton_not h) (by decide)

/-- Witness for C10 at a concrete input containing a tab. -/
theorem no_tab_finding_after_clean_witness :
    tabMsg ∉ detect_ats_issues (clean_text (some "a\tb")) :=
  no_tab_finding_after_clean "a\tb"

/-! ### Claim C7: short contact-free resume triggers all five findings -/

theorem no_digit_no_run (l : List Char) (hdig : ∀ c ∈ l, isDigitCh c = false) :
    hasDigitRun 10 l = false := by
  by_contra hcon
  rw [Bool.not_eq_false, hasDigitRun, List.any_eq_true] at hcon
  obtain ⟨t, ht, hlen⟩ := hcon
  have hsfx : t <:+ l := (List.mem_tails t l).mp ht
  have h10 : 10 ≤ (t.takeWhile isDigitCh).length := by simpa using hlen
  cases htw : t.takeWhile isDigitCh with
  | nil => rw [htw] at h10; simp at h10
  | cons c cs =>
    have hc : c ∈ t.takeWhile isDigitCh := by rw [htw]; exact List.mem_cons_self c cs
    have hcd : isDigitCh c = true := List.mem_takeWhile_imp hc
    have hct : c ∈ t := (List.takeWhile_prefix isDigitCh).subset hc
    exact absurd hcd (by simp [hdig c (hsfx.subset hct)])

theorem phoneAt_has_digit (t : List Char) (h : phoneAt t = true) :
    ∃ c ∈ t, isDigitCh c = true := by
  match t with
  | [] => simp [phoneAt] at h
  | [c0] => simp [phoneAt] at h
  | [c0, c1] => simp [phoneAt] at h
  | [c0, c1, c2] => simp [phoneAt] at h
  | [c0, c1, c2, c3] => simp [phoneAt] at h
  | c0 :: d1 :: d2 :: d3 :: c4 :: rest =>
    simp only [phoneAt, Bool.and_eq_true] at h
    exact ⟨d1, by simp, h.1.1.1.1.2⟩

theorem no_digit_no_phone (l : List Char) (hdig : ∀ c ∈ l, isDigitCh c = false) :
    hasPhonePattern l = false := by
  by_contra hcon
  rw [Bool.not_eq_false, hasPhonePattern, List.any_eq_true] at hcon
  obtain ⟨t, ht, hat⟩ := hcon
  have hsfx : t <:+ l := (List.mem_tails t l).mp ht
  obtain ⟨c, hct, hcd⟩ := phoneAt_has_digit t hat
  exact absurd hcd (by simp [hdig c (hsfx.subset hct)])

/-- Claim C7: on a 10-character resume with no at-sign, no digits and no
education or experience keywords, all five applicable findings are
returned (plus possibly the tab finding), independently. -/
theorem ats_all_findings_on_short_resume (s : String)
    (hlen : s.length = 10)
    (hat : '@' ∉ s.data)
    (hdig : ∀ c ∈ s.data, isDigitCh c = false)
    (hedu : hasAnyWord eduWords s.data = false)
    (hexp : hasAnyWord expWords s.data = false) :
    detect_ats_issues s =
      [shortMsg] ++ (if '\t' ∈ s.data then [tabMsg] else []) ++
        [emailMsg, phoneMsg, eduMsg, expMsg] ∧
    5 ≤ (detect_ats_issues s).length ∧
    List.Nodup [shortMsg, emailMsg, phoneMsg, eduMsg, expMsg] ∧
    shortMsg ∈ detect_ats_issues s ∧ emailMsg ∈ detect_ats_issues s ∧
    phoneMsg ∈ detect_ats_issues s ∧ eduMsg ∈ detect_ats_issues s ∧
    expMsg ∈ detect_ats_issues s := by
  have h500 : s.length < 500 := by omega
  have hrun : hasDigitRun 10 s.data = false := no_digit_no_run s.data hdig
  have hph : hasPhonePattern s.data = false := no_digit_no_phone s.data hdig
  have hEq : detect_ats_issues s =
      [shortMsg] ++ (if '\t' ∈ s.data then [tabMsg] else []) ++
        [emailMsg, phoneMsg, eduMsg, expMsg] := by
    by_cases htb : '\t' ∈ s.data <;>
      simp [detect_ats_issues, h500, hat, hrun, hph, hedu, hexp, htb]
  refine ⟨hEq, ?_, by decide, ?_, ?_, ?_, ?_, ?_⟩
  · rw [hEq]; by_cases htb : '\t' ∈ s.data <;> simp [htb]
  all_goals (rw [hEq]; simp)

/-- Witness for C7 at a concrete 10-character input. -/
theorem ats_all_findings_on_short_resume_witness :
    shortMsg ∈ detect_ats_issues "zzzzzzzzzz" ∧
    emailMsg ∈ detect_ats_issues "zzzzzzzzzz" ∧
    5 ≤ (detect_ats_issues "zzzzzzzzzz").length :=
  ⟨(ats_all_findings_on_short_resume "zzzzzzzzzz" (by decide) (by decide)
      (by decide) (by decide) (by decide)).2.2.2.1,
   (ats_all_findings_on_short_resume "zzzzzzzzzz" (by decide) (by decide)
      (by decide) (by decide) (by decide)).2.2.2.2.1,
   (ats_all_findings_on_short_resume "zzzzzzzzzz" (by decide) (by decide)
      (by decide) (by decide) (by decide)).2.1⟩

/-! ### Claim C1: structure of keyword_coverage -/

/-- Claim C1: keyword_coverage returns (percentage, found, all) with found
the sublist of the deduplicated sorted reference tokens occurring as
substrings of the lowercased resume, found a subset of all, the percentage
equal to 100 times found over max 1 all, lying in the range 0 to 100, and
0 when the reference yields no tokens. -/
theorem keyword_coverage_spec (rt jd : String) :
    (keyword_coverage rt jd).2.1 =
      ((keyword_coverage rt jd).2.2).filter (fun w => isSubstr w.data (lowerStrL rt)) ∧
    (keyword_coverage rt jd).2.1 ⊆ (keyword_coverage rt jd).2.2 ∧
    (keyword_coverage rt jd).1 =
      (((keyword_coverage rt jd).2.1.length : ℚ) /
        ((max 1 (keyword_coverage rt jd).2.2.length : ℕ) : ℚ)) * 100 ∧
    0 ≤ (keyword_coverage rt jd).1 ∧ (keyword_coverage rt jd).1 ≤ 100 ∧
    ((keyword_coverage rt jd).2.2 = [] → (keyword_coverage rt jd).1 = 0) := by
  have hfound : (keyword_coverage rt jd).2.1 =
      ((keyword_coverage rt jd).2.2).filter (fun w => isSubstr w.data (lowerStrL rt)) := rfl
  have hcov : (keyword_coverage rt jd).1 =
      (((keyword_coverage rt jd).2.1.length : ℚ) /
        ((max 1 (keyword_coverage rt jd).2.2.length : ℕ) : ℚ)) * 100 := rfl
  have hdenpos : (0 : ℚ) < ((max 1 (keyword_coverage rt jd).2.2.length : ℕ) : ℚ) := by
    have : (1 : ℕ) ≤ max 1 (keyword_coverage rt jd).2.2.length := le_max_left _ _
    exact_mod_cast lt_of_lt_of_le Nat.zero_lt_one this
  have hlen : (keyword_coverage rt jd).2.1.length ≤
      max 1 (keyword_coverage rt jd).2.2.length := by
    calc (keyword_coverage rt jd).2.1.length
        ≤ (keyword_coverage rt jd).2.2.length := by
          rw [hfound]; exact List.length_filter_le _ _
      _ ≤ max 1 (keyword_coverage rt jd).2.2.length := le_max_right _ _
  refine ⟨hfound, ?_, hcov, ?_, ?_, ?_⟩
  · rw [hfound]; exact List.filter_subset' _
  · rw [hcov]
    exact mul_nonneg (div_nonneg (Nat.cast_nonneg _) hdenpos.le) (by norm_num)
  · rw [hcov]
    have hdiv : ((keyword_coverage rt jd).2.1.length : ℚ) /
        ((max 1 (keyword_coverage rt jd).2.2.length : ℕ) : ℚ) ≤ 1 := by
      rw [div_le_one hdenpos]
      exact_mod_cast hlen
    calc (((keyword_coverage rt jd).2.1.length : ℚ) /
          ((max 1 (keyword_coverage rt jd).2.2.length : ℕ) : ℚ)) * 100
        ≤ 1 * 100 := by
          exact mul_le_mul_of_nonneg_right hdiv (by norm_num)
      _ = 100 := by norm_num
  · intro hnil
    rw [hcov, hfound, hnil]
    simp

/-- Witness for C1: a reference text with no tokens yields percentage 0. -/
theorem keyword_coverage_spec_witness : (keyword_coverage "x" "").1 = 0 :=
  (keyword_coverage_spec "x" "").2.2.2.2.2 (by decide)

/-! ### Claim C9: structure of generate_suggestions -/

/-- Claim C9: generate_suggestions always ends with the generic tailoring
suggestion (hence is never empty); the missing-keyword suggestion, when
present, heads the list and is built from the first 15 missing reference
tokens, naming at most the first 10 of them. -/
theorem generate_suggestions_spec (rt jd : String) (fk : List String) :
    generate_suggestions rt jd fk ≠ [] ∧
    (generate_suggestions rt jd fk).getLast? = some genericMsg ∧
    (missingOf rt jd fk).length ≤ 15 ∧
    ((missingOf rt jd fk).take 10).length ≤ 10 ∧
    (missingOf rt jd fk ≠ [] →
      (generate_suggestions rt jd fk).head? =
        some (missingMsg ((missingOf rt jd fk).take 10))) := by
  refine ⟨?_, ?_, List.length_take_le _ _, List.length_take_le _ _, ?_⟩
  · show (_ ++ _ ++ _ ++ [genericMsg]) ≠ []
    exact List.append_ne_nil_of_right_ne_nil _ (List.cons_ne_nil _ _)
  · show (_ ++ _ ++ _ ++ [genericMsg]).getLast? = some genericMsg
    exact List.getLast?_concat _
  · intro hne
    have hiso : (missingOf rt jd fk).isEmpty = false := by
      rcases hmo : missingOf rt jd fk with _ | ⟨a, l⟩
      · exact absurd hmo hne
      · rfl
    show ((if !(missingOf rt jd fk).isEmpty
        then [missingMsg ((missingOf rt jd fk).take 10)] else []) ++ _ ++ _ ++
        [genericMsg]).head? = _
    rw [hiso]
    simp

/-- Witness for C9 at a concrete input with a nonempty missing list. -/
theorem generate_suggestions_spec_witness :
    (generate_suggestions "" "zzz" []).head? =
      some (missingMsg ((missingOf "" "zzz" []).take 10)) :=
  (generate_suggestions_spec "" "zzz" []).2.2.2.2 (by decide)

/-! ### Claim C6: the docx temp file -/

/-- A docx parser that raises (docx2txt.process throwing). -/
def failingDocxParser : List ℕ → Except Unit (Option String) := fun _ => Except.error ()

/-- A byte decoder (decode with errors ignored never raises). -/
def decode0 : List ℕ → String := fun _ => "decoded"

/-- Counterexample to C6: when the docx parser raises, the temporary file
"temp_upload.docx" is NOT removed — it is still present in the filesystem
after extract_text_from_upload returns (the os.remove call is only on the
success path, there is no finally/with-scope around it). -/
theorem extract_docx_leaves_tempfile_on_failure :
    "temp_upload.docx" ∈
      (extract_text_from_upload (some failingDocxParser) none decode0
        (some ⟨"resume.docx", [1, 2, 3]⟩) ⟨[]⟩).2.files := by
  decide

/-- Claim C6 (amended): when the docx parser succeeds, the temporary file
is removed before the function returns. -/
theorem extract_docx_removes_tempfile_on_success
    (proc : List ℕ → Except Unit (Option String))
    (pdf : Option (List ℕ → Except Unit String)) (decode : List ℕ → String)
    (name : String) (content : List ℕ) (fs : FileSys) (t : Option String)
    (hname : strEndsWith (String.mk (lowerStrL name)) ".docx" = true)
    (htxt : strEndsWith (String.mk (lowerStrL name)) ".txt" = false)
    (hp : proc content = Except.ok t) :
    "temp_upload.docx" ∉
      (extract_text_from_upload (some proc) pdf decode
        (some ⟨name, content⟩) fs).2.files := by
  intro hmem
  simp only [extract_text_from_upload, htxt, Bool.false_eq_true, if_false,
    hname, if_true, hp] at hmem
  simp only [fsRemove, fsWrite, List.mem_filter] at hmem
  exact absurd hmem.2 (by simp)

/-- Witness for the amended C6 at a concrete successful parse. -/
theorem extract_docx_removes_tempfile_on_success_witness :
    "temp_upload.docx" ∉
      (extract_text_from_upload (some (fun _ => Except.ok (some "text"))) none decode0
        (some ⟨"resume.docx", [1, 2, 3]⟩) ⟨["temp_upload.docx", "other"]⟩).2.files :=
  extract_docx_removes_tempfile_on_success (fun _ => Except.ok (some "text")) none decode0
    "resume.docx" [1, 2, 3] ⟨["temp_upload.docx", "other"]⟩ (some "text")
    (by decide) (by decide) rfl

/-! ### Properties of the similarity scorer -/

theorem df_le_two (a b t : String) : df a b t ≤ 2 := by
  unfold df; split_ifs <;> norm_num

theorem idf_ge_one (a b t : String) : 1 ≤ idf a b t := by
  have h2 : (df a b t : ℝ) ≤ 2 := by exact_mod_cast df_le_two a b t
  have hpos : (0 : ℝ) < 1 + (df a b t : ℝ) := by positivity
  have hlog : 0 ≤ Real.log (3 / (1 + (df a b t : ℝ))) := by
    apply Real.log_nonneg
    rw [le_div_iff₀ hpos]
    linarith
  unfold idf; linarith

theorem idf_pos (a b t : String) : 0 < idf a b t :=
  lt_of_lt_of_le one_pos (idf_ge_one a b t)

theorem tfidfW_nonneg (a b d t : String) : 0 ≤ tfidfW a b d t :=
  mul_nonneg (Nat.cast_nonneg _) (idf_pos a b t).le

theorem dotP_nonneg (a b d e : String) : 0 ≤ dotP a b d e :=
  Finset.sum_nonneg fun t _ => mul_nonneg (tfidfW_nonneg a b d t) (tfidfW_nonneg a b e t)

theorem dotP_cauchy_schwarz (a b : String) :
    dotP a b a b ≤ Real.sqrt (dotP a b a a) * Real.sqrt (dotP a b b b) := by
  have ea : dotP a b a a = ∑ t ∈ vocabFinset a b, (tfidfW a b a t) ^ 2 := by
    unfold dotP; refine Finset.sum_congr rfl ?_; intro t _; ring
  have eb : dotP a b b b = ∑ t ∈ vocabFinset a b, (tfidfW a b b t) ^ 2 := by
    unfold dotP; refine Finset.sum_congr rfl ?_; intro t _; ring
  calc dotP a b a b
      = ∑ t ∈ vocabFinset a b, tfidfW a b a t * tfidfW a b b t := rfl
    _ ≤ Real.sqrt (∑ t ∈ vocabFinset a b, (tfidfW a b a t) ^ 2) *
        Real.sqrt (∑ t ∈ vocabFinset a b, (tfidfW a b b t) ^ 2) :=
        Real.sum_mul_le_sqrt_mul_sqrt _ _ _
    _ = Real.sqrt (dotP a b a a) * Real.sqrt (dotP a b b b) := by rw [← ea, ← eb]

theorem similarity_nonneg (a b : String) : 0 ≤ similarity_score a b := by
  unfold similarity_score
  split
  · exact le_refl 0
  · exact mul_nonneg (by norm_num)
      (div_nonneg (dotP_nonneg a b a b)
        (mul_nonneg (Real.sqrt_nonneg _) (Real.sqrt_nonneg _)))

theorem similarity_le_100 (a b : String) : similarity_score a b ≤ 100 := by
  unfold similarity_score
  split
  · norm_num
  · have hcs := dotP_cauchy_schwarz a b
    rcases eq_or_lt_of_le
        (mul_nonneg (Real.sqrt_nonneg (dotP a b a a)) (Real.sqrt_nonneg (dotP a b b b)))
      with h0 | h0
    · rw [← h0, div_zero]; norm_num
    · have hle : dotP a b a b /
          (Real.sqrt (dotP a b a a) * Real.sqrt (dotP a b b b)) ≤ 1 :=
        (div_le_one h0).mpr hcs
      linarith

theorem similarity_degenerate_empty : similarity_score "" "" = 0 := by
  have h : vocabFinset "" "" = ∅ := by decide
  unfold similarity_score
  rw [if_pos h]

theorem similarity_degenerate_single : similarity_score "a" "" = 0 := by
  have h : vocabFinset "a" "" = ∅ := by decide
  unfold similarity_score
  rw [if_pos h]

/-- Claim C2: similarity_score is total and bounded: its value always lies
in the range 0 to 100, and the degenerate inputs ("", "") and ("a", "")
take the except branch and return exactly 0. -/
theorem similarity_total_bounded (a b : String) :
    0 ≤ similarity_score a b ∧ similarity_score a b ≤ 100 ∧
    similarity_score "" "" = 0 ∧ similarity_score "a" "" = 0 :=
  ⟨similarity_nonneg a b, similarity_le_100 a b,
   similarity_degenerate_empty, similarity_degenerate_single⟩

theorem similarity_self_eq_100 (x : String) (hx : analyzeList x ≠ []) :
    similarity_score x x = 100 := by
  obtain ⟨t0, ht0⟩ := List.exists_mem_of_ne_nil _ hx
  have ht0v : t0 ∈ vocabFinset x x := by
    unfold vocabFinset
    rw [List.mem_toFinset]
    exact List.mem_append_left _ ht0
  have hvoc : ¬vocabFinset x x = ∅ := by
    intro h
    rw [h] at ht0v
    exact absurd ht0v (Finset.not_mem_empty t0)
  have hidf1 : idf x x t0 = 1 := by
    have htx : t0 ∈ analyzeList x := ht0
    simp only [idf, df, htx, if_true]
    norm_num
  have hApos : 0 < dotP x x x x := by
    refine Finset.sum_pos' (fun t _ =>
      mul_nonneg (tfidfW_nonneg x x x t) (tfidfW_nonneg x x x t)) ⟨t0, ht0v, ?_⟩
    have hc : (0 : ℝ) < ((analyzeList x).count t0 : ℝ) := by
      exact_mod_cast List.count_pos_iff.mpr ht0
    have hw : 0 < tfidfW x x x t0 := mul_pos hc (idf_pos x x t0)
    exact mul_pos hw hw
  unfold similarity_score
  rw [if_neg hvoc, Real.mul_self_sqrt (dotP_nonneg x x x x),
    div_self (ne_of_gt hApos)]
  norm_num

/-- Claim C8: self-similarity is maximal: for a text with at least one
analyzed term, similarity with itself is 100, which bounds the similarity
with every other text. -/
theorem similarity_self_maximal (x y : String) (hx : analyzeList x ≠ []) :
    similarity_score x y ≤ similarity_score x x := by
  rw [similarity_self_eq_100 x hx]
  exact similarity_le_100 x y

/-- Witness for C8 at concrete inputs. -/
theorem similarity_self_maximal_witness :
    similarity_score "machine learning models" "" ≤
      similarity_score "machine learning models" "machine learning models" :=
  similarity_self_maximal "machine learning models" "" (by decide)

theorem similarity_pos_of_shared_term (a b t : String)
    (hta : t ∈ analyzeList a) (htb : t ∈ analyzeList b) :
    0 < similarity_score a b := by
  have htv : t ∈ vocabFinset a b := by
    unfold vocabFinset
    rw [List.mem_toFinset]
    exact List.mem_append_left _ hta
  have hvoc : ¬vocabFinset a b = ∅ := by
    intro h
    rw [h] at htv
    exact absurd htv (Finset.not_mem_empty t)
  have hwpos : ∀ d : String, t ∈ analyzeList d → 0 < tfidfW a b d t := by
    intro d hd
    have hc : (0 : ℝ) < ((analyzeList d).count t : ℝ) := by
      exact_mod_cast List.count_pos_iff.mpr hd
    exact mul_pos hc (idf_pos a b t)
  have hdab : 0 < dotP a b a b :=
    Finset.sum_pos' (fun u _ => mul_nonneg (tfidfW_nonneg a b a u) (tfidfW_nonneg a b b u))
      ⟨t, htv, mul_pos (hwpos a hta) (hwpos b htb)⟩
  have hdaa : 0 < dotP a b a a :=
    Finset.sum_pos' (fun u _ => mul_nonneg (tfidfW_nonneg a b a u) (tfidfW_nonneg a b a u))
      ⟨t, htv, mul_pos (hwpos a hta) (hwpos a hta)⟩
  have hdbb : 0 < dotP a b b b :=
    Finset.sum_pos' (fun u _ => mul_nonneg (tfidfW_nonneg a b b u) (tfidfW_nonneg a b b u))
      ⟨t, htv, mul_pos (hwpos b htb) (hwpos b htb)⟩
  have hdiv : 0 < dotP a b a b /
      (Real.sqrt (dotP a b a a) * Real.sqrt (dotP a b b b)) :=
    div_pos hdab (mul_pos (Real.sqrt_pos.mpr hdaa) (Real.sqrt_pos.mpr hdbb))
  unfold similarity_score
  rw [if_neg hvoc]
  linarith

/-! ### Claim C5: the end-to-end scenario -/

/-- The resume text of the end-to-end scenario. -/
def c5resume : String :=
  "Experienced Data Scientist. Education: BS Computer Science, University of X. Experience: built machine learning models. Contact: a@b.com, (555) 123-4567."

/-- The job description of the end-to-end scenario. -/
def c5jd : String :=
  "Looking for a data scientist with Python and machine learning experience."

set_option maxRecDepth 20000

/-- Counterexample to C5 as stated: detect_ats_issues on the scenario
resume does NOT return zero findings — the resume is 153 characters long,
under the 500-character threshold, so the too-short finding fires. -/
theorem c5_scenario_has_finding : detect_ats_issues c5resume ≠ [] := by decide

/-- Claim C5 (amended): on the scenario inputs the coverage percentage is
positive, the found keywords contain "machine", the only finding is the
too-short length warning (none of the other five checks fire), and the
similarity score is positive. -/
theorem c5_scenario_amended :
    0 < (keyword_coverage c5resume c5jd).1 ∧
    "machine" ∈ (keyword_coverage c5resume c5jd).2.1 ∧
    detect_ats_issues c5resume = [shortMsg] ∧
    0 < similarity_score c5resume c5jd := by
  have hfound : (keyword_coverage c5resume c5jd).2.1 =
      ["data", "learning", "machine", "scientist"] := by decide
  have hunique : (keyword_coverage c5resume c5jd).2.2 =
      ["and", "data", "experience.", "for", "learning", "looking", "machine",
       "python", "scientist", "with"] := by decide
  have hfst : (keyword_coverage c5resume c5jd).1 =
      (((keyword_coverage c5resume c5jd).2.1.length : ℚ) /
        ((max 1 (keyword_coverage c5resume c5jd).2.2.length : ℕ) : ℚ)) * 100 := rfl
  refine ⟨?_, ?_, by decide,
    similarity_pos_of_shared_term c5resume c5jd "machine" (by decide) (by decide)⟩
  · rw [hfst, hfound, hunique]
    norm_num
  · rw [hfound]
    decide

end ResumeApp
